import Mathlib

set_option maxRecDepth 8192

/- Verification development for the ai-pdf-renamer command-line utility
   (Go implementation, file embedded from the repository's main program).
   Go strings are modelled as `List Char`: every operation the program
   performs on the strings of interest is rune-wise, and after the first
   sanitization step every remaining character is ASCII, so Go's byte
   indexing and rune indexing coincide on the values that reach it. -/

/-- Characters matched by the Go character class `[a-zA-Z0-9]`. -/
def isAlnum (c : Char) : Bool :=
  ('a' ≤ c && c ≤ 'z') || ('A' ≤ c && c ≤ 'Z') || ('0' ≤ c && c ≤ '9')

/-- Characters matched by the Go character class `[a-zA-Z0-9-]`.  The program
replaces every rune outside this class with a dash. -/
def allowedChar (c : Char) : Bool := isAlnum c || c = '-'

/-- Embeds `regexp.MustCompile([^a-zA-Z0-9-]).ReplaceAllString(resp, "-")`:
every rune outside the allowed class becomes a dash. -/
def replaceDisallowed (s : List Char) : List Char :=
  s.map (fun c => if allowedChar c then c else '-')

/-- Embeds `regexp.MustCompile(-+).ReplaceAllString(s, "-")`: every maximal
run of consecutive dashes collapses to a single dash. -/
def collapseDashes : List Char → List Char
  | [] => []
  | [c] => [c]
  | a :: b :: rest =>
    if a = '-' ∧ b = '-' then collapseDashes (b :: rest)
    else a :: collapseDashes (b :: rest)

/-- Trailing half of Go `strings.Trim(s, "-")`: drop every trailing dash. -/
def trimRightDashes (s : List Char) : List Char :=
  (s.reverse.dropWhile (fun c => c = '-')).reverse

/-- Embeds Go `strings.Trim(cleanName, "-")`: strip all leading and all
trailing dashes. -/
def trimDashes (s : List Char) : List Char :=
  trimRightDashes (s.dropWhile (fun c => c = '-'))

/-- The response clean-up shared verbatim by `generateFilename` and
`generateFilenameFast`: replace disallowed runes by dashes, collapse dash
runs, trim dashes, then truncate to the first 64 characters (the Go code
slices bytes, but at this point the string is pure ASCII, one byte per
rune, so character truncation is exact). -/
def sanitize (s : List Char) : List Char :=
  let t := trimDashes (collapseDashes (replaceDisallowed s))
  if t.length > 64 then t.take 64 else t

/-- The regular expression stated by the specification for sanitized
candidates, written out over character lists:
the empty string, or a string of allowed characters that starts and ends
with an alphanumeric character. -/
def matchesSpecRegex (s : List Char) : Bool :=
  s.isEmpty ||
  (s.all allowedChar && isAlnum (s.headD 'a') && isAlnum (s.getLastD 'a'))

/-- No two consecutive characters of the list are both dashes. -/
def noDoubleDash : List Char → Bool
  | [] => true
  | [_] => true
  | a :: b :: rest => !(a = '-' && b = '-') && noDoubleDash (b :: rest)

/-- Bytes of an image, as produced by the rasterizer collaborator. -/
abbrev Img : Type := List Nat

/-- The standard base64 alphabet used by Go encoding/base64 StdEncoding. -/
def base64Alphabet : List Char :=
  "ABCDEFGHIJKLMNOPQRSTUVWXYZabcdefghijklmnopqrstuvwxyz0123456789+/".data

/-- Digit lookup in the base64 alphabet. -/
def base64Digit (n : Nat) : Char := base64Alphabet.getD n 'A'

/-- Embeds Go base64.StdEncoding.EncodeToString over a byte list (each
entry below 256): three bytes become four digits, with padding for a
final group of one or two bytes. -/
def base64Encode : List Nat → List Char
  | [] => []
  | [a] => [base64Digit (a / 4 % 64), base64Digit (a % 4 * 16), '=', '=']
  | [a, b] => [base64Digit (a / 4 % 64), base64Digit (a % 4 * 16 + b / 16),
               base64Digit (b % 16 * 4), '=']
  | a :: b :: c :: rest =>
      base64Digit (a / 4 % 64) :: base64Digit (a % 4 * 16 + b / 16) ::
      base64Digit (b % 16 * 4 + c / 64) :: base64Digit (c % 64) ::
      base64Encode rest

/-- The program configuration record.  The Exitor field of the source is
process-exit plumbing and carries no data the core logic reads, so it is
not part of the model. -/
structure Config where
  AutoRename : Bool
  CustomPrompt : List Char
  Model : String
  FastMode : Bool
  OutputDir : String

/-- A decoded response object of the local inference service. -/
structure OllamaResponse where
  response : List Char
  error : String

/-- Outcome of one POST to the generate endpoint as the program observes
it: either the call failed before a response object was decoded (transport,
read or JSON error), or a decoded response object. -/
inductive ApiResult where
  | fail
  | ok (resp : OllamaResponse)

/-- The response-validation and clean-up logic of generateFilename: a
failed call is an error, a response with a non-empty error field is an
error, an empty response string is an error, and otherwise the sanitized
response is the candidate name. -/
def generateFilename (api : ApiResult) : Except String (List Char) :=
  match api with
  | .fail => .error "error calling Ollama API"
  | .ok r =>
    if r.error ≠ "" then .error "error from Ollama API"
    else if r.response = [] then .error "error: Empty response from Ollama API"
    else .ok (sanitize r.response)

/-- The response-validation and clean-up logic of generateFilenameFast: an
empty image list is an error, a failed call is an error, a response with a
non-empty error field is an error; unlike the text path there is no check
for an empty response string, so the sanitized (possibly empty) response
is returned as the candidate name. -/
def generateFilenameFast (images : List Img) (api : ApiResult) :
    Except String (List Char) :=
  if images = [] then .error "no images extracted from PDF"
  else
    match api with
    | .fail => .error "error calling Ollama API"
    | .ok r =>
      if r.error ≠ "" then .error "error from Ollama API"
      else .ok (sanitize r.response)

/-- The request body fields of one call to the generate endpoint. -/
structure GeneratePayload where
  model : String
  prompt : List Char
  stream : Bool
  images : Option (List (List Char))

/-- Request body built by generateFilename: text only, no images key. -/
def textPayload (cfg : Config) (prompt : List Char) : GeneratePayload :=
  { model := cfg.Model, prompt := prompt, stream := false, images := none }

/-- Request body built by generateFilenameFast: the extracted page images,
base64-encoded in their page order. -/
def visionPayload (cfg : Config) (prompt : List Char) (images : List Img) :
    GeneratePayload :=
  { model := cfg.Model, prompt := prompt, stream := false,
    images := some (images.map base64Encode) }

/-- The page loop of extractPDFPages: starting at page number `page` with
`fuel` iterations left, collect rasterized pages and stop at the first
page whose rasterization fails.  The rasterizer collaborator is the
oracle `pg`. -/
def collectPages (pg : Nat → Option Img) : Nat → Nat → List Img
  | 0, _ => []
  | fuel + 1, page =>
    match pg page with
    | none => []
    | some img => img :: collectPages pg fuel (page + 1)

/-- Embeds extractPDFPages: request pages 1, 2, 3 in order, stop at the
first failure (end-of-document heuristic), and report an error exactly
when no page at all was obtained. -/
def extractPDFPages (pg : Nat → Option Img) : Except String (List Img) :=
  let images := collectPages pg 3 1
  if images = [] then .error "error: could not extract any pages from PDF"
  else .ok images

/-- Filesystem state: file contents by path, plus the set of directories. -/
structure FS where
  files : String → Option (List Nat)
  dirs : String → Bool

/-- The path separator (the program builds paths with filepath.Join). -/
def pathSep : String := "/"

/-- The extension appended to every candidate name. -/
def pdfExt : String := ".pdf"

/-- Go filepath.Base restricted to the names this program builds
(non-empty, no trailing separator): the part after the final slash. -/
def basename (p : String) : String :=
  ⟨(p.data.reverse.takeWhile (fun c => c ≠ '/')).reverse⟩

/-- Directory part of a path: everything before the final slash, empty
when the path has no slash (a plain name resolves in the working
directory). -/
def dirOf (p : String) : String :=
  ⟨((p.data.reverse.dropWhile (fun c => c ≠ '/')).drop 1).reverse⟩

/-- Go filepath.Join for one cleaned directory and one simple name. -/
def joinPath (dir name : String) : String := dir ++ pathSep ++ name

/-- Embeds writeOutputFile: append the pdf extension to the candidate
name; when an output directory is configured, create it and place the
file there under its base name, otherwise the output path is just the new
name (resolved in the working directory, not relative to the source
file); copy the source bytes to the output path.  The filesystem is
passed explicitly; the mkdir and write system calls themselves are
modelled as succeeding, while a missing source file is the read error. -/
def writeOutputFile (cfg : Config) (fs : FS) (srcPath newName : String) :
    FS × Except String String :=
  let outputName : String := newName ++ pdfExt
  if cfg.OutputDir ≠ "" then
    let fs1 : FS := { fs with dirs := fun d => d = cfg.OutputDir || fs.dirs d }
    let outputPath := joinPath cfg.OutputDir (basename outputName)
    match fs1.files srcPath with
    | none => (fs1, .error "error reading source file")
    | some data =>
      ({ fs1 with
          files := fun p => if p = outputPath then some data else fs1.files p },
        .ok outputPath)
  else
    let outputPath := outputName
    match fs.files srcPath with
    | none => (fs, .error "error reading source file")
    | some data =>
      ({ fs with
          files := fun p => if p = outputPath then some data else fs.files p },
        .ok outputPath)

/-- Observable steps of processing one file, in order of occurrence. -/
inductive Event where
  | visionExtract | visionInfer | fallback | ocrExtract | ocrInfer
  | promptUser | write | kept
  deriving DecidableEq

/-- Per-file behavior of the external collaborators: the rasterizer (one
result per page number), the vision inference call, the OCR text
extractor (none means extraction failed), and the text inference call. -/
structure FileEnv where
  pages : Nat → Option Img
  visionApi : ApiResult
  ocrText : Option (List Char)
  textApi : ApiResult

/-- Result of processing one file: the returned error or success, the
filesystem, the AutoRename flag (a global the source mutates), the
remaining console input, and the trace of observable steps. -/
structure PDFOutcome where
  result : Except String Unit
  fs : FS
  autoRename : Bool
  inputs : List String
  events : List Event

/-- The accept-all console answer. -/
def ansAll : String := "a"

/-- The accept console answer. -/
def ansYes : String := "y"

/-- The empty console token (what Scanf leaves on no input). -/
def noInput : String := ""

/-- The confirmation-and-write block that the source repeats verbatim in
fallbackToOCR and in both branches of processPDF: with AutoRename set,
write immediately; otherwise read one console token, where the accept-all
answer sets AutoRename and writes, the accept answer writes, and any
other token keeps the original name and succeeds without writing. -/
def confirmAndWrite (cfg : Config) (auto : Bool) (fs : FS)
    (inputs : List String) (srcPath : String) (newName : List Char) :
    PDFOutcome :=
  if auto then
    let w := writeOutputFile cfg fs srcPath ⟨newName⟩
    { result := w.2.map (fun _ => ()), fs := w.1, autoRename := auto,
      inputs := inputs, events := [.write] }
  else
    let ans := inputs.headD noInput
    let rest := inputs.tail
    if ans = ansAll then
      let w := writeOutputFile cfg fs srcPath ⟨newName⟩
      { result := w.2.map (fun _ => ()), fs := w.1, autoRename := true,
        inputs := rest, events := [.promptUser, .write] }
    else if ans = ansYes then
      let w := writeOutputFile cfg fs srcPath ⟨newName⟩
      { result := w.2.map (fun _ => ()), fs := w.1, autoRename := auto,
        inputs := rest, events := [.promptUser, .write] }
    else
      { result := .ok (), fs := fs, autoRename := auto, inputs := rest,
        events := [.promptUser, .kept] }

/-- Embeds fallbackToOCR: extract text via OCR (an extraction failure
fails the file with no further fallback), call the text inference path
(a failure there fails the file), then confirm and write. -/
def fallbackToOCR (cfg : Config) (auto : Bool) (fs : FS)
    (inputs : List String) (env : FileEnv) (pdfFile : String) : PDFOutcome :=
  match env.ocrText with
  | none =>
    { result := .error "error: OCR failed", fs := fs, autoRename := auto,
      inputs := inputs, events := [.fallback, .ocrExtract] }
  | some _ =>
    match generateFilename env.textApi with
    | .error e =>
      { result := .error e, fs := fs, autoRename := auto, inputs := inputs,
        events := [.fallback, .ocrExtract, .ocrInfer] }
    | .ok newName =>
      let o := confirmAndWrite cfg auto fs inputs pdfFile newName
      { o with events := .fallback :: .ocrExtract :: .ocrInfer :: o.events }

/-- Embeds processPDF: in vision mode, try page extraction and vision
inference, falling back to OCR on a failure of either; otherwise (or as
fallback) run the OCR path, which is terminal. -/
def processPDF (cfg : Config) (auto : Bool) (fs : FS) (inputs : List String)
    (env : FileEnv) (pdfFile : String) : PDFOutcome :=
  if cfg.FastMode then
    match extractPDFPages env.pages with
    | .error _ =>
      let o := fallbackToOCR cfg auto fs inputs env pdfFile
      { o with events := .visionExtract :: o.events }
    | .ok images =>
      match generateFilenameFast images env.visionApi with
      | .error _ =>
        let o := fallbackToOCR cfg auto fs inputs env pdfFile
        { o with events := .visionExtract :: .visionInfer :: o.events }
      | .ok newName =>
        let o := confirmAndWrite cfg auto fs inputs pdfFile newName
        { o with events := .visionExtract :: .visionInfer :: o.events }
  else
    match env.ocrText with
    | none =>
      { result := .error "error: OCR failed", fs := fs, autoRename := auto,
        inputs := inputs, events := [.ocrExtract] }
    | some _ =>
      match generateFilename env.textApi with
      | .error e =>
        { result := .error e, fs := fs, autoRename := auto,
          inputs := inputs, events := [.ocrExtract, .ocrInfer] }
      | .ok newName =>
        let o := confirmAndWrite cfg auto fs inputs pdfFile newName
        { o with events := .ocrExtract :: .ocrInfer :: o.events }

/-- State after a batch: the AutoRename flag, the remaining console
input, the filesystem, and one event trace per processed file. -/
structure BatchOut where
  autoRename : Bool
  inputs : List String
  fs : FS
  traces : List (List Event)

/-- The per-match loop at the end of setup: process each file in turn,
continuing after per-file errors, threading the AutoRename flag, the
console input and the filesystem across iterations. -/
def processBatch (cfg : Config) : Bool → FS → List String →
    List (FileEnv × String) → BatchOut
  | auto, fs, inputs, [] => ⟨auto, inputs, fs, []⟩
  | auto, fs, inputs, (env, p) :: rest =>
    let o := processPDF cfg auto fs inputs env p
    let b := processBatch cfg o.autoRename o.fs o.inputs rest
    { b with traces := o.events :: b.traces }

/-- The designated vision-capable model. -/
def visionModel : String := "qwen2.5vl:7b"

/-- The model-consistency step of setup (the only part of setup that
writes a configuration field the claims are about): when vision mode is
enabled and a different model was configured, override the model with the
vision model before the configuration becomes the global one. -/
def setupModelCheck (cfg : Config) : Config :=
  if cfg.FastMode ∧ cfg.Model ≠ visionModel then
    { cfg with Model := visionModel }
  else cfg

/-- The candidate name the OCR path carries into the confirmation block
when extraction and text inference both succeed, and none otherwise. -/
def ocrName (env : FileEnv) : Option (List Char) :=
  match env.ocrText with
  | none => none
  | some _ => (generateFilename env.textApi).toOption

/-- The candidate name the orchestrator carries into the confirmation
block when every stage before it succeeds, and none otherwise. -/
def producedName (cfg : Config) (env : FileEnv) : Option (List Char) :=
  if cfg.FastMode then
    match extractPDFPages env.pages with
    | .error _ => ocrName env
    | .ok images =>
      match generateFilenameFast images env.visionApi with
      | .error _ => ocrName env
      | .ok n => some n
  else ocrName env

/-- The vision attempt fails: page extraction yields zero pages, or the
vision inference call returns an error. -/
def visionFails (env : FileEnv) : Prop :=
  match extractPDFPages env.pages with
  | .error _ => True
  | .ok images => ∃ e, generateFilenameFast images env.visionApi = .error e

/-- The OCR path fails: text extraction fails, or text inference fails. -/
def ocrFails (env : FileEnv) : Prop :=
  env.ocrText = none ∨ ∃ e, generateFilename env.textApi = .error e

/- ------------------------------------------------------------------ -/
/- Sanitizer lemmas                                                    -/
/- ------------------------------------------------------------------ -/

theorem mem_collapseDashes {c : Char} : ∀ {l : List Char},
    c ∈ collapseDashes l → c ∈ l
  | [], h => by simp [collapseDashes] at h
  | [a], h => by simpa [collapseDashes] using h
  | a :: b :: r, h => by
    rw [collapseDashes] at h
    split at h
    · exact List.mem_cons_of_mem a (mem_collapseDashes h)
    · rcases List.mem_cons.mp h with h1 | h2
      · exact h1 ▸ List.mem_cons_self c _
      · exact List.mem_cons_of_mem a (mem_collapseDashes h2)

theorem collapseDashes_headq : ∀ (l : List Char),
    (collapseDashes l).head? = l.head?
  | [] => rfl
  | [_] => rfl
  | a :: b :: r => by
    rw [collapseDashes]
    split
    · rename_i h
      rw [collapseDashes_headq (b :: r)]
      simp [h.1, h.2]
    · rfl

theorem noDoubleDash_tail (a : Char) (l : List Char)
    (h : noDoubleDash (a :: l) = true) : noDoubleDash l = true := by
  cases l with
  | nil => rfl
  | cons x t => rw [noDoubleDash, Bool.and_eq_true] at h; exact h.2

theorem noDoubleDash_collapseDashes : ∀ (l : List Char),
    noDoubleDash (collapseDashes l) = true
  | [] => rfl
  | [_] => rfl
  | a :: b :: r => by
    rw [collapseDashes]
    split
    · exact noDoubleDash_collapseDashes (b :: r)
    · rename_i h
      have ih := noDoubleDash_collapseDashes (b :: r)
      have hh := collapseDashes_headq (b :: r)
      cases hc : collapseDashes (b :: r) with
      | nil => rfl
      | cons x t =>
        rw [hc] at ih hh
        have hxb : x = b := by simpa using hh
        subst hxb
        rw [noDoubleDash, Bool.and_eq_true]
        refine ⟨?_, ih⟩
        simp only [Bool.not_eq_eq_eq_not, Bool.not_true, Bool.and_eq_false_iff]
        by_cases ha : a = '-'
        · right
          have hb : ¬ x = '-' := fun hb => h ⟨ha, hb⟩
          simpa using hb
        · left
          simpa using ha

theorem noDoubleDash_append_left : ∀ (l₁ l₂ : List Char),
    noDoubleDash (l₁ ++ l₂) = true → noDoubleDash l₁ = true
  | [], _, _ => rfl
  | [_], _, _ => rfl
  | a :: b :: r, l₂, h => by
    rw [List.cons_append, List.cons_append] at h
    rw [noDoubleDash, Bool.and_eq_true] at h ⊢
    refine ⟨h.1, ?_⟩
    exact noDoubleDash_append_left (b :: r) l₂ (by rw [List.cons_append]; exact h.2)

theorem noDoubleDash_append_right : ∀ (l₁ l₂ : List Char),
    noDoubleDash (l₁ ++ l₂) = true → noDoubleDash l₂ = true
  | [], _, h => h
  | a :: r, l₂, h =>
    noDoubleDash_append_right r l₂
      (noDoubleDash_tail a _ (by rwa [List.cons_append] at h))

theorem headq_dropWhile_false (p : Char → Bool) : ∀ (l : List Char) {x : Char},
    (l.dropWhile p).head? = some x → p x = false
  | [], x, h => by simp [List.dropWhile] at h
  | a :: r, x, h => by
    rw [List.dropWhile] at h
    split at h
    · exact headq_dropWhile_false p r h
    · rename_i hpa
      rw [List.head?_cons, Option.some_inj] at h
      subst h
      exact hpa

theorem exists_append_dropWhile (p : Char → Bool) (l : List Char) :
    ∃ t, l = t ++ l.dropWhile p := by
  rcases List.dropWhile_suffix (l := l) p with ⟨t, ht⟩
  exact ⟨t, ht.symm⟩

theorem trimRightDashes_append (l : List Char) :
    ∃ t, l = trimRightDashes l ++ t := by
  rcases List.dropWhile_suffix (l := l.reverse) (fun c => c = '-') with ⟨t, ht⟩
  refine ⟨t.reverse, ?_⟩
  rw [trimRightDashes, ← List.reverse_append, ht, List.reverse_reverse]

theorem headq_append_left {l₁ l₂ : List Char} (h : l₁ ≠ []) :
    (l₁ ++ l₂).head? = l₁.head? := by
  cases l₁ with
  | nil => exact absurd rfl h
  | cons a t => rfl

theorem replaceDisallowed_allowed (s : List Char) :
    ∀ c ∈ replaceDisallowed s, allowedChar c = true := by
  intro c hc
  rw [replaceDisallowed] at hc
  rcases List.mem_map.mp hc with ⟨a, _, rfl⟩
  by_cases h : allowedChar a = true
  · simp [h]
  · simp only [if_neg h]
    decide

theorem mem_trimRightDashes {c : Char} {l : List Char}
    (h : c ∈ trimRightDashes l) : c ∈ l := by
  rcases trimRightDashes_append l with ⟨t, ht⟩
  rw [ht]
  exact List.mem_append_left t h

theorem mem_dropWhileDash {c : Char} {l : List Char} (p : Char → Bool)
    (h : c ∈ l.dropWhile p) : c ∈ l := by
  rcases exists_append_dropWhile p l with ⟨t, ht⟩
  rw [ht]
  exact List.mem_append_right t h

theorem mem_trimDashes {c : Char} {l : List Char} (h : c ∈ trimDashes l) :
    c ∈ l :=
  mem_dropWhileDash _ (mem_trimRightDashes h)

theorem sanitize_eq_take (s : List Char) :
    sanitize s = (trimDashes (collapseDashes (replaceDisallowed s))).take 64 := by
  show (if (trimDashes (collapseDashes (replaceDisallowed s))).length > 64
        then (trimDashes (collapseDashes (replaceDisallowed s))).take 64
        else trimDashes (collapseDashes (replaceDisallowed s))) = _
  split
  · rfl
  · rename_i h
    rw [List.take_of_length_le (by omega)]

theorem sanitize_length_le (s : List Char) : (sanitize s).length ≤ 64 := by
  rw [sanitize_eq_take]
  exact List.length_take_le 64 _

theorem sanitize_all_allowed (s : List Char) :
    ∀ c ∈ sanitize s, allowedChar c = true := by
  intro c hc
  rw [sanitize_eq_take] at hc
  exact replaceDisallowed_allowed s c
    (mem_collapseDashes (mem_trimDashes (List.take_subset 64 _ hc)))

theorem sanitize_noDoubleDash (s : List Char) :
    noDoubleDash (sanitize s) = true := by
  rw [sanitize_eq_take]
  have hd : noDoubleDash
      ((collapseDashes (replaceDisallowed s)).dropWhile (fun c => c = '-')) =
      true := by
    rcases exists_append_dropWhile (fun c => c = '-')
      (collapseDashes (replaceDisallowed s)) with ⟨v, hv⟩
    exact noDoubleDash_append_right v _
      (by rw [← hv]; exact noDoubleDash_collapseDashes _)
  have h1 : noDoubleDash (trimDashes (collapseDashes (replaceDisallowed s))) =
      true := by
    rw [trimDashes]
    rcases trimRightDashes_append
      ((collapseDashes (replaceDisallowed s)).dropWhile (fun c => c = '-'))
      with ⟨u, hu⟩
    exact noDoubleDash_append_left _ u (by rw [← hu]; exact hd)
  exact noDoubleDash_append_left _ _
    (by rw [List.take_append_drop]; exact h1)

theorem sanitize_head_ne_dash (s : List Char) {x : Char}
    (h : (sanitize s).head? = some x) : x ≠ '-' := by
  rw [sanitize_eq_take, List.head?_take] at h
  simp only [show (64 : Nat) ≠ 0 by omega, if_false] at h
  rw [trimDashes] at h
  have ht : trimRightDashes
      ((collapseDashes (replaceDisallowed s)).dropWhile (fun c => c = '-')) ≠
      [] := by
    intro he
    rw [he] at h
    simp at h
  rcases trimRightDashes_append
    ((collapseDashes (replaceDisallowed s)).dropWhile (fun c => c = '-'))
    with ⟨u, hu⟩
  have h2 : ((collapseDashes (replaceDisallowed s)).dropWhile
      (fun c => c = '-')).head? = some x := by
    rw [hu, headq_append_left ht]
    exact h
  have h3 := headq_dropWhile_false (fun c => c = '-') _ h2
  simpa using h3

theorem sanitize_head_alnum (s : List Char) :
    isAlnum ((sanitize s).headD 'A') = true := by
  cases hh : (sanitize s).head? with
  | none =>
    have he : sanitize s = [] := List.head?_eq_none_iff.mp hh
    rw [List.headD_eq_head?_getD, hh]
    decide
  | some x =>
    rw [List.headD_eq_head?_getD, hh]
    have hne := sanitize_head_ne_dash s hh
    have hmem : x ∈ sanitize s := List.mem_of_mem_head? hh
    have hall := sanitize_all_allowed s x hmem
    rw [allowedChar, Bool.or_eq_true] at hall
    rcases hall with h1 | h2
    · exact h1
    · exact absurd (by simpa using h2) hne

theorem replaceDisallowed_eq_self : ∀ {l : List Char},
    (∀ c ∈ l, allowedChar c = true) → replaceDisallowed l = l
  | [], _ => rfl
  | a :: t, h => by
    rw [replaceDisallowed, List.map_cons,
      if_pos (h a (List.mem_cons_self a t))]
    have ih := replaceDisallowed_eq_self
      (fun c hc => h c (List.mem_cons_of_mem a hc))
    rw [replaceDisallowed] at ih
    rw [ih]

theorem collapseDashes_eq_self : ∀ {l : List Char},
    noDoubleDash l = true → collapseDashes l = l
  | [], _ => rfl
  | [_], _ => rfl
  | a :: b :: r, h => by
    rw [noDoubleDash, Bool.and_eq_true] at h
    have h1 : ¬(a = '-' ∧ b = '-') := by
      rcases h with ⟨h1, _⟩
      intro hab
      rw [hab.1, hab.2] at h1
      simp at h1
    rw [collapseDashes, if_neg h1, collapseDashes_eq_self h.2]

theorem dropWhile_eq_self_of_head (p : Char → Bool) (l : List Char)
    (h : ∀ x, l.head? = some x → p x = false) : l.dropWhile p = l := by
  cases l with
  | nil => rfl
  | cons a t =>
    rw [List.dropWhile_cons, if_neg]
    rw [h a rfl]
    simp

theorem trimRightDashes_eq_self {l : List Char}
    (h : ∀ x, l.getLast? = some x → x ≠ '-') : trimRightDashes l = l := by
  rw [trimRightDashes, dropWhile_eq_self_of_head, List.reverse_reverse]
  intro x hx
  rw [List.head?_reverse] at hx
  simpa using h x hx

/-- Concrete 65-character model response: 33 letters a separated by single
dashes.  Its sanitization truncates one character after a dash. -/
def altDashA : List Char := (List.replicate 32 ['a', '-']).flatten ++ ['a']

/-- Concrete 65-character model response: 33 letters b separated by single
dashes. -/
def altDashB : List Char := (List.replicate 32 ['b', '-']).flatten ++ ['b']

/-- C3, counterexample: the sanitization of this 65-character response
ends in a dash (truncation to 64 characters runs after dash-trimming), so
it does not match the specification regular expression. -/
theorem sanitize_regex_cex :
    matchesSpecRegex (sanitize altDashA) = false ∧
    (sanitize altDashA).getLastD 'A' = '-' := by decide

/-- C3 (amended): for every input, sanitization produces at most 64
characters, all in the class allowed by the replacement step, with no two
consecutive dashes and no leading dash (the first character, when there
is one, is alphanumeric).  A trailing dash may remain when truncation
cuts directly after a dash, so the ending clause of the specification
regular expression does not hold in general. -/
theorem sanitize_shape (s : List Char) :
    (sanitize s).length ≤ 64 ∧
    (sanitize s).all allowedChar = true ∧
    noDoubleDash (sanitize s) = true ∧
    isAlnum ((sanitize s).headD 'A') = true :=
  ⟨sanitize_length_le s,
    List.all_eq_true.mpr (sanitize_all_allowed s),
    sanitize_noDoubleDash s,
    sanitize_head_alnum s⟩

/-- C9, counterexample: sanitization is not idempotent.  On this
65-character response the first pass truncates to 64 characters ending in
a dash, and the second pass trims that dash away. -/
theorem sanitize_not_idem_cex :
    sanitize (sanitize altDashB) ≠ sanitize altDashB := by decide

/-- C9 (amended): sanitization is idempotent on every input whose
sanitization does not end in a dash, that is, whenever the 64-character
truncation did not cut directly after a dash. -/
theorem sanitize_idem_of_no_trailing_dash (s : List Char)
    (h : (sanitize s).getLastD 'A' ≠ '-') :
    sanitize (sanitize s) = sanitize s := by
  have hall := sanitize_all_allowed s
  have hnodd := sanitize_noDoubleDash s
  have hlen := sanitize_length_le s
  have e1 : replaceDisallowed (sanitize s) = sanitize s :=
    replaceDisallowed_eq_self hall
  have e2 : collapseDashes (sanitize s) = sanitize s :=
    collapseDashes_eq_self hnodd
  have e3 : (sanitize s).dropWhile (fun c => c = '-') = sanitize s := by
    apply dropWhile_eq_self_of_head
    intro x hx
    simpa using sanitize_head_ne_dash s hx
  have e4 : trimRightDashes (sanitize s) = sanitize s := by
    apply trimRightDashes_eq_self
    intro x hx
    rw [List.getLastD_eq_getLast? 'A' (sanitize s), hx] at h
    intro hx2
    rw [hx2] at h
    simp at h
  rw [sanitize_eq_take (sanitize s), e1, e2, trimDashes, e3, e4,
    List.take_of_length_le hlen]

/-- Concrete short input for witnessing the amended idempotence claim. -/
def wordAbc : List Char := ['a', 'b', 'c']

/-- C9 witness: the amended idempotence theorem applied at a concrete
input whose sanitization ends in a letter. -/
theorem sanitize_idem_witness :
    (sanitize wordAbc).getLastD 'A' ≠ '-' ∧
    sanitize (sanitize wordAbc) = sanitize wordAbc :=
  ⟨by decide, sanitize_idem_of_no_trailing_dash wordAbc (by decide)⟩

/- ------------------------------------------------------------------ -/
/- Mode and model consistency, response asymmetry                      -/
/- ------------------------------------------------------------------ -/

/-- C2: for every configuration with vision mode enabled, the setup step
overrides any other configured model with the designated vision model,
and every request body built from the resulting configuration (text mode
or vision mode, both read the same global model field) carries the vision
model identifier. -/
theorem setup_vision_model_consistency (cfg : Config)
    (h : cfg.FastMode = true) :
    (setupModelCheck cfg).Model = visionModel ∧
    (∀ p, (textPayload (setupModelCheck cfg) p).model = visionModel) ∧
    (∀ p images,
      (visionPayload (setupModelCheck cfg) p images).model = visionModel) := by
  have hm : (setupModelCheck cfg).Model = visionModel := by
    rw [setupModelCheck]
    split
    · rfl
    · rename_i hn
      by_contra hne
      exact hn ⟨h, hne⟩
  exact ⟨hm, fun _ => hm, fun _ _ => hm⟩

/-- Concrete configuration selecting a non-vision model while vision mode
is enabled. -/
def cfgOtherModel : Config :=
  { AutoRename := false, CustomPrompt := [], Model := "llama3.3:latest",
    FastMode := true, OutputDir := "" }

/-- C2 witness: the model-consistency theorem applied at a concrete
configuration whose model field names a different model. -/
theorem setup_vision_model_witness :
    cfgOtherModel.FastMode = true ∧
    cfgOtherModel.Model ≠ visionModel ∧
    (setupModelCheck cfgOtherModel).Model = visionModel :=
  ⟨rfl, by decide, (setup_vision_model_consistency cfgOtherModel rfl).1⟩

/-- C5: for one and the same decoded response with empty text and no
error field, text-only inference reports an error while vision-mode
inference applies no empty-response check and returns the sanitized,
hence empty, candidate. -/
theorem empty_response_asymmetry (r : OllamaResponse)
    (he : r.error = "") (hr : r.response = []) :
    (∃ e, generateFilename (.ok r) = .error e) ∧
    (∀ images, images ≠ [] →
      generateFilenameFast images (.ok r) = .ok []) := by
  constructor
  · have h1 : generateFilename (.ok r) =
        .error "error: Empty response from Ollama API" := by
      rw [generateFilename, if_neg (by simp [he]), if_pos hr]
    exact ⟨_, h1⟩
  · intro images hne
    rw [generateFilenameFast, if_neg hne]
    show (if r.error ≠ "" then _ else _) = _
    rw [if_neg (by simp [he]), hr]
    rfl

/-- The decoded response with empty text and no error field. -/
def emptyResp : OllamaResponse := { response := [], error := "" }

/-- C5 witness: the asymmetry theorem applied at the concrete empty
response and a one-image input. -/
theorem empty_response_asymmetry_witness :
    (∃ e, generateFilename (.ok emptyResp) = .error e) ∧
    generateFilenameFast [[7]] (.ok emptyResp) = .ok [] := by
  have h := empty_response_asymmetry emptyResp rfl rfl
  exact ⟨h.1, h.2 [[7]] (by simp)⟩

/- ------------------------------------------------------------------ -/
/- Page extraction                                                     -/
/- ------------------------------------------------------------------ -/

theorem collectPages_spec (pg : Nat → Option Img) : ∀ (fuel start : Nat),
    (collectPages pg fuel start).length ≤ fuel ∧
    (∀ k (h : k < (collectPages pg fuel start).length),
      pg (start + k) = some ((collectPages pg fuel start).get ⟨k, h⟩)) ∧
    ((collectPages pg fuel start).length < fuel →
      pg (start + (collectPages pg fuel start).length) = none)
  | 0, start => by
    refine ⟨Nat.le_refl 0, ?_, ?_⟩
    · intro k h
      simp [collectPages] at h
    · intro h
      simp [collectPages] at h
  | fuel + 1, start => by
    have ih := collectPages_spec pg fuel (start + 1)
    cases hp : pg start with
    | none =>
      have hc : collectPages pg (fuel + 1) start = [] := by
        rw [collectPages, hp]
      rw [hc]
      refine ⟨by simp, ?_, ?_⟩
      · intro k h
        simp at h
      · intro _
        simpa using hp
    | some img =>
      have hc : collectPages pg (fuel + 1) start =
          img :: collectPages pg fuel (start + 1) := by
        rw [collectPages, hp]
      rw [hc]
      refine ⟨by simpa using ih.1, ?_, ?_⟩
      · intro k h
        cases k with
        | zero => simpa using hp
        | succ k =>
          have hk : k < (collectPages pg fuel (start + 1)).length := by
            simpa using h
          have := ih.2.1 k hk
          rw [show start + (k + 1) = start + 1 + k by omega]
          simpa using this
      · intro h
        have hlt : (collectPages pg fuel (start + 1)).length < fuel := by
          simpa using h
        have := ih.2.2 hlt
        rw [show start + (img :: collectPages pg fuel (start + 1)).length =
            start + 1 + (collectPages pg fuel (start + 1)).length by simp; omega]
        exact this

/-- C7: page extraction requests pages in ascending page order starting
at 1, stops at the first page whose rasterization fails, reports an error
exactly when page 1 already fails (zero pages), and otherwise returns the
successfully rasterized pages in page order, between one and three of
them, with the first failing page (when within range) right after them;
the vision request body then base64-encodes those images in the same
order. -/
theorem extractPDFPages_spec (pg : Nat → Option Img) :
    ((∃ e, extractPDFPages pg = .error e) ↔ pg 1 = none) ∧
    (∀ images, extractPDFPages pg = .ok images →
      1 ≤ images.length ∧ images.length ≤ 3 ∧
      (∀ k (h : k < images.length), pg (1 + k) = some (images.get ⟨k, h⟩)) ∧
      (images.length < 3 → pg (1 + images.length) = none) ∧
      (∀ cfg prompt, (visionPayload cfg prompt images).images =
        some (images.map base64Encode))) := by
  have hs := collectPages_spec pg 3 1
  constructor
  · constructor
    · rintro ⟨e, he⟩
      have hc : collectPages pg 3 1 = [] := by
        by_contra hne
        rw [extractPDFPages] at he
        rw [if_neg hne] at he
        exact Except.noConfusion he
      have h0 : (collectPages pg 3 1).length < 3 := by
        rw [hc]
        simp
      have := hs.2.2 h0
      rw [hc] at this
      simpa using this
    · intro h1
      have hc : collectPages pg 3 1 = [] := by
        cases hc : collectPages pg 3 1 with
        | nil => rfl
        | cons x t =>
          have hk : 0 < (collectPages pg 3 1).length := by
            rw [hc]
            simp
          have := hs.2.1 0 hk
          rw [h1] at this
          exact Option.noConfusion this
      have he2 : extractPDFPages pg =
          .error "error: could not extract any pages from PDF" := by
        rw [extractPDFPages, if_pos hc]
      exact ⟨_, he2⟩
  · intro images him
    have hc : collectPages pg 3 1 = images := by
      by_cases hne : collectPages pg 3 1 = []
      · rw [extractPDFPages, if_pos hne] at him
        exact Except.noConfusion him
      · rw [extractPDFPages, if_neg hne] at him
        exact Except.ok.inj him
    rw [hc] at hs
    have hpos : 1 ≤ images.length := by
      by_contra hne
      have he : images = [] := by
        cases images with
        | nil => rfl
        | cons x t => simp at hne
      rw [extractPDFPages, hc, he] at him
      rw [if_pos rfl] at him
      exact Except.noConfusion him
    exact ⟨hpos, hs.1, hs.2.1, hs.2.2, fun _ _ => rfl⟩

/-- The rasterizer oracle of a two-page document: pages 1 and 2 succeed,
page 3 and beyond fail. -/
def twoPageDoc : Nat → Option Img :=
  fun n => if n ≤ 2 then some [n] else none

/-- C7 witness: the extraction theorem applied at the two-page oracle,
whose extraction returns exactly the two pages in order and whose next
page fails. -/
theorem extractPDFPages_spec_witness :
    extractPDFPages twoPageDoc = .ok [[1], [2]] ∧
    (1 ≤ ([[1], [2]] : List Img).length ∧ ([[1], [2]] : List Img).length ≤ 3 ∧
      (∀ k (h : k < ([[1], [2]] : List Img).length),
        twoPageDoc (1 + k) = some (([[1], [2]] : List Img).get ⟨k, h⟩)) ∧
      (([[1], [2]] : List Img).length < 3 →
        twoPageDoc (1 + ([[1], [2]] : List Img).length) = none) ∧
      (∀ cfg prompt, (visionPayload cfg prompt [[1], [2]]).images =
        some (([[1], [2]] : List Img).map base64Encode))) :=
  ⟨by rfl, (extractPDFPages_spec twoPageDoc).2 [[1], [2]] (by rfl)⟩

/- ------------------------------------------------------------------ -/
/- Writing the output file                                             -/
/- ------------------------------------------------------------------ -/

theorem writeOutputFile_eq_pos (cfg : Config) (fs : FS)
    (srcPath newName : String) (data : List Nat)
    (hdir : cfg.OutputDir ≠ "") (hsrc : fs.files srcPath = some data) :
    writeOutputFile cfg fs srcPath newName =
      ({ files := fun p =>
            if p = joinPath cfg.OutputDir (basename (newName ++ pdfExt))
            then some data else fs.files p,
          dirs := fun d => d = cfg.OutputDir || fs.dirs d },
        .ok (joinPath cfg.OutputDir (basename (newName ++ pdfExt)))) := by
  rw [writeOutputFile, if_pos hdir]
  show (match fs.files srcPath with
    | none => _
    | some data => _ : FS × Except String String) = _
  rw [hsrc]

theorem writeOutputFile_eq_neg (cfg : Config) (fs : FS)
    (srcPath newName : String) (data : List Nat)
    (hdir : ¬cfg.OutputDir ≠ "") (hsrc : fs.files srcPath = some data) :
    writeOutputFile cfg fs srcPath newName =
      ({ files := fun p =>
            if p = newName ++ pdfExt then some data else fs.files p,
          dirs := fs.dirs },
        .ok (newName ++ pdfExt)) := by
  rw [writeOutputFile, if_neg hdir]
  show (match fs.files srcPath with
    | none => _
    | some data => _ : FS × Except String String) = _
  rw [hsrc]

theorem writeOutputFile_none_pos (cfg : Config) (fs : FS)
    (srcPath newName : String)
    (hdir : cfg.OutputDir ≠ "") (hsrc : fs.files srcPath = none) :
    writeOutputFile cfg fs srcPath newName =
      ({ files := fs.files, dirs := fun d => d = cfg.OutputDir || fs.dirs d },
        .error "error reading source file") := by
  rw [writeOutputFile, if_pos hdir]
  show (match fs.files srcPath with
    | none => _
    | some data => _ : FS × Except String String) = _
  rw [hsrc]

theorem writeOutputFile_none_neg (cfg : Config) (fs : FS)
    (srcPath newName : String)
    (hdir : ¬cfg.OutputDir ≠ "") (hsrc : fs.files srcPath = none) :
    writeOutputFile cfg fs srcPath newName =
      (fs, .error "error reading source file") := by
  rw [writeOutputFile, if_neg hdir]
  show (match fs.files srcPath with
    | none => _
    | some data => _ : FS × Except String String) = _
  rw [hsrc]

/-- C8 (amended): when a rename is confirmed and the source is readable,
the file is written under the candidate name with the pdf extension,
into the configured output directory (which is created) when one is set,
and otherwise at the bare path candidate.pdf, which resolves in the
working directory and is adjacent to the source only when the source is
in the working directory; the written content equals the source content
unchanged. -/
theorem writeOutputFile_spec (cfg : Config) (fs : FS)
    (srcPath newName : String) (data : List Nat)
    (hsrc : fs.files srcPath = some data) :
    ∃ fs2, writeOutputFile cfg fs srcPath newName =
        (fs2, .ok (if cfg.OutputDir ≠ "" then
            joinPath cfg.OutputDir (basename (newName ++ pdfExt))
          else newName ++ pdfExt)) ∧
      fs2.files (if cfg.OutputDir ≠ "" then
            joinPath cfg.OutputDir (basename (newName ++ pdfExt))
          else newName ++ pdfExt) = some data ∧
      (cfg.OutputDir ≠ "" → fs2.dirs cfg.OutputDir = true) := by
  by_cases hdir : cfg.OutputDir ≠ ""
  · rw [writeOutputFile_eq_pos cfg fs srcPath newName data hdir hsrc]
    rw [if_pos hdir]
    refine ⟨_, rfl, by simp, fun _ => by simp⟩
  · rw [writeOutputFile_eq_neg cfg fs srcPath newName data hdir hsrc]
    rw [if_neg hdir]
    refine ⟨_, rfl, by simp, fun h => absurd h hdir⟩

/-- A source file inside a subdirectory. -/
def srcSub : String := "sub/doc.pdf"

/-- A candidate name produced by inference. -/
def nameInvoice : String := "invoice"

/-- The path the program writes when no output directory is set. -/
def outInvoice : String := "invoice.pdf"

/-- Filesystem with exactly the one source file in a subdirectory. -/
def fsOne : FS :=
  { files := fun p => if p = srcSub then some [1, 2] else none,
    dirs := fun _ => false }

/-- Configuration with an output directory set. -/
def cfgOutDir : Config :=
  { AutoRename := true, CustomPrompt := [], Model := visionModel,
    FastMode := true, OutputDir := "out" }

/-- Configuration with no output directory. -/
def cfgNoOut : Config :=
  { AutoRename := true, CustomPrompt := [], Model := visionModel,
    FastMode := false, OutputDir := "" }

/-- C8, counterexample: with no output directory configured and a source
file in directory sub, the written path is the bare candidate name with
no directory part, so the copy is placed in the working directory and is
neither adjacent to the source nor in a configured output directory. -/
theorem writeOutputFile_not_adjacent_cex :
    (writeOutputFile cfgNoOut fsOne srcSub nameInvoice).2 = .ok outInvoice ∧
    dirOf outInvoice = "" ∧
    dirOf srcSub = "sub" ∧
    cfgNoOut.OutputDir = "" :=
  ⟨by rfl, by decide, by decide, by rfl⟩

/-- C8 witness: the amended write theorem applied at a concrete
configuration with an output directory. -/
theorem writeOutputFile_spec_witness :
    fsOne.files srcSub = some [1, 2] ∧
    (∃ fs2, writeOutputFile cfgOutDir fsOne srcSub nameInvoice =
        (fs2, .ok (if cfgOutDir.OutputDir ≠ "" then
            joinPath cfgOutDir.OutputDir (basename (nameInvoice ++ pdfExt))
          else nameInvoice ++ pdfExt)) ∧
      fs2.files (if cfgOutDir.OutputDir ≠ "" then
            joinPath cfgOutDir.OutputDir (basename (nameInvoice ++ pdfExt))
          else nameInvoice ++ pdfExt) = some [1, 2] ∧
      (cfgOutDir.OutputDir ≠ "" → fs2.dirs cfgOutDir.OutputDir = true)) :=
  ⟨by rfl,
    writeOutputFile_spec cfgOutDir fsOne srcSub nameInvoice [1, 2] (by rfl)⟩

/-- C10: a confirmed rename is a copy with a frame condition: after a
successful write the source entry is unchanged (the original file still
exists at its path with its content), every path other than the output
path keeps its content, and no directory other than the configured
output directory is created; with no output directory configured, no
directory at all is created. -/
theorem writeOutputFile_frame (cfg : Config) (fs : FS)
    (srcPath newName : String) (fs2 : FS) (outPath : String)
    (hw : writeOutputFile cfg fs srcPath newName = (fs2, .ok outPath)) :
    fs2.files srcPath = fs.files srcPath ∧
    (∀ p, p ≠ outPath → fs2.files p = fs.files p) ∧
    (∀ d, d ≠ cfg.OutputDir → fs2.dirs d = fs.dirs d) ∧
    (cfg.OutputDir = "" → ∀ d, fs2.dirs d = fs.dirs d) := by
  by_cases hdir : cfg.OutputDir ≠ ""
  · cases hsrc : fs.files srcPath with
    | none =>
      rw [writeOutputFile_none_pos cfg fs srcPath newName hdir hsrc] at hw
      exact absurd (congrArg Prod.snd hw) (by simp)
    | some data =>
      rw [writeOutputFile_eq_pos cfg fs srcPath newName data hdir hsrc] at hw
      rw [Prod.mk.injEq] at hw
      have hfs2 := hw.1
      have houtp : joinPath cfg.OutputDir (basename (newName ++ pdfExt)) =
          outPath := Except.ok.inj hw.2
      refine ⟨?_, ?_, ?_, fun h0 => absurd h0 (by simpa using hdir)⟩
      · rw [← hfs2]
        show (if srcPath = joinPath cfg.OutputDir (basename (newName ++ pdfExt))
            then some data else fs.files srcPath) = some data
        rw [houtp]
        by_cases hx : srcPath = outPath
        · rw [if_pos hx]
        · rw [if_neg hx, hsrc]
      · intro p hp
        rw [← hfs2]
        show (if p = joinPath cfg.OutputDir (basename (newName ++ pdfExt))
            then some data else fs.files p) = fs.files p
        rw [houtp, if_neg hp]
      · intro d hd
        rw [← hfs2]
        show (decide (d = cfg.OutputDir) || fs.dirs d) = fs.dirs d
        simp [hd]
  · cases hsrc : fs.files srcPath with
    | none =>
      rw [writeOutputFile_none_neg cfg fs srcPath newName hdir hsrc] at hw
      exact absurd (congrArg Prod.snd hw) (by simp)
    | some data =>
      rw [writeOutputFile_eq_neg cfg fs srcPath newName data hdir hsrc] at hw
      rw [Prod.mk.injEq] at hw
      have hfs2 := hw.1
      have houtp : newName ++ pdfExt = outPath := Except.ok.inj hw.2
      refine ⟨?_, ?_, ?_, ?_⟩
      · rw [← hfs2]
        show (if srcPath = newName ++ pdfExt
            then some data else fs.files srcPath) = some data
        rw [houtp]
        by_cases hx : srcPath = outPath
        · rw [if_pos hx]
        · rw [if_neg hx, hsrc]
      · intro p hp
        rw [← hfs2]
        show (if p = newName ++ pdfExt then some data else fs.files p) =
          fs.files p
        rw [houtp, if_neg hp]
      · intro d _
        rw [← hfs2]
      · intro _ d
        rw [← hfs2]

/-- C10 witness: the frame theorem applied at the concrete output
directory configuration and one-file filesystem. -/
theorem writeOutputFile_frame_witness :
    ((writeOutputFile cfgOutDir fsOne srcSub nameInvoice).1.files srcSub =
      fsOne.files srcSub ∧
    (∀ p, p ≠ joinPath cfgOutDir.OutputDir (basename (nameInvoice ++ pdfExt)) →
      (writeOutputFile cfgOutDir fsOne srcSub nameInvoice).1.files p =
        fsOne.files p) ∧
    (∀ d, d ≠ cfgOutDir.OutputDir →
      (writeOutputFile cfgOutDir fsOne srcSub nameInvoice).1.dirs d =
        fsOne.dirs d) ∧
    (cfgOutDir.OutputDir = "" → ∀ d,
      (writeOutputFile cfgOutDir fsOne srcSub nameInvoice).1.dirs d =
        fsOne.dirs d)) := by
  have h2 : (writeOutputFile cfgOutDir fsOne srcSub nameInvoice).2 =
      .ok (joinPath cfgOutDir.OutputDir (basename (nameInvoice ++ pdfExt))) :=
    by rfl
  have hw : writeOutputFile cfgOutDir fsOne srcSub nameInvoice =
      ((writeOutputFile cfgOutDir fsOne srcSub nameInvoice).1,
        .ok (joinPath cfgOutDir.OutputDir (basename (nameInvoice ++ pdfExt)))) := by
    rw [← h2]
  exact writeOutputFile_frame cfgOutDir fsOne srcSub nameInvoice _ _ hw

/- ------------------------------------------------------------------ -/
/- Empty candidate names                                               -/
/- ------------------------------------------------------------------ -/

/-- A decoded response of three exclamation marks: non-empty, no error
field, sanitizes to the empty string. -/
def respBangs : OllamaResponse := { response := ['!', '!', '!'], error := "" }

/-- Collaborator behavior where OCR succeeds and the text inference call
returns the all-punctuation response. -/
def envBangs : FileEnv :=
  { pages := fun _ => none, visionApi := .fail,
    ocrText := some ['t'], textApi := .ok respBangs }

/-- A source file in the working directory. -/
def srcDoc : String := "doc.pdf"

/-- The file name produced by an empty candidate. -/
def dotPdf : String := ".pdf"

/-- Filesystem with exactly the one source file. -/
def fsDoc : FS :=
  { files := fun p => if p = srcDoc then some [9] else none,
    dirs := fun _ => false }

/-- OCR-only auto-confirm configuration with no output directory. -/
def cfgAutoOcr : Config :=
  { AutoRename := true, CustomPrompt := [], Model := visionModel,
    FastMode := false, OutputDir := "" }

/-- C4, counterexample: a response that sanitizes to the empty string is
not treated as a failure.  Inference returns the empty candidate as a
success, processing succeeds, and a file named exactly .pdf is written
with the source content. -/
theorem empty_candidate_dotpdf_cex :
    generateFilename (.ok respBangs) = .ok [] ∧
    (processPDF cfgAutoOcr true fsDoc [] envBangs srcDoc).result = .ok () ∧
    (processPDF cfgAutoOcr true fsDoc [] envBangs srcDoc).fs.files dotPdf =
      some [9] ∧
    fsDoc.files dotPdf = none := by
  refine ⟨by rfl, by rfl, by rfl, by decide⟩

/-- C4 (amended): the caller applies no empty-candidate check.  In
OCR-only mode with auto-confirm set and no output directory, whenever the
inference response has no error field, is non-empty, and sanitizes to the
empty string, processing succeeds and the source bytes are written to a
file named exactly .pdf. -/
theorem empty_candidate_no_failure (cfg : Config) (fs : FS) (src : String)
    (env : FileEnv) (r : OllamaResponse) (t : List Char) (data : List Nat)
    (hfm : cfg.FastMode = false) (hout : cfg.OutputDir = "")
    (hocr : env.ocrText = some t) (happ : env.textApi = .ok r)
    (herr : r.error = "") (hresp : r.response ≠ [])
    (hsan : sanitize r.response = [])
    (hsrc : fs.files src = some data) :
    (processPDF cfg true fs [] env src).result = .ok () ∧
    (processPDF cfg true fs [] env src).fs.files dotPdf = some data := by
  have hgen : generateFilename env.textApi = .ok [] := by
    rw [happ, generateFilename, if_neg (by simp [herr]), if_neg hresp, hsan]
  have hne : ¬cfg.OutputDir ≠ "" := by simp [hout]
  have hw := writeOutputFile_eq_neg cfg fs src ⟨([] : List Char)⟩ data hne hsrc
  have hred : processPDF cfg true fs [] env src =
      { result := ((writeOutputFile cfg fs src ⟨([] : List Char)⟩).2.map
          (fun _ => ())),
        fs := (writeOutputFile cfg fs src ⟨([] : List Char)⟩).1,
        autoRename := true, inputs := [],
        events := [.ocrExtract, .ocrInfer, .write] } := by
    unfold processPDF
    rw [if_neg (by simp [hfm]), hocr, hgen]
    rfl
  rw [hred, hw]
  constructor
  · rfl
  · show (if dotPdf = String.mk [] ++ pdfExt then some data
        else fs.files dotPdf) = some data
    rw [if_pos (by decide)]

/-- C4 witness: the amended theorem applied at the concrete
all-punctuation response. -/
theorem empty_candidate_no_failure_witness :
    (processPDF cfgAutoOcr true fsDoc [] envBangs srcDoc).result = .ok () ∧
    (processPDF cfgAutoOcr true fsDoc [] envBangs srcDoc).fs.files dotPdf =
      some [9] :=
  empty_candidate_no_failure cfgAutoOcr fsDoc srcDoc envBangs respBangs
    ['t'] [9] rfl rfl rfl rfl rfl (by decide) (by decide) (by decide)

/- ------------------------------------------------------------------ -/
/- Fallback orchestration                                              -/
/- ------------------------------------------------------------------ -/

theorem confirmAndWrite_events (cfg : Config) (auto : Bool) (fs : FS)
    (inputs : List String) (src : String) (name : List Char) :
    (confirmAndWrite cfg auto fs inputs src name).events = [.write] ∨
    (confirmAndWrite cfg auto fs inputs src name).events =
      [.promptUser, .write] ∨
    (confirmAndWrite cfg auto fs inputs src name).events =
      [.promptUser, .kept] := by
  rw [confirmAndWrite]
  by_cases ha : auto = true
  · rw [if_pos ha]
    left
    rfl
  · rw [if_neg ha]
    by_cases h1 : inputs.headD noInput = ansAll
    · rw [if_pos h1]
      right; left
      rfl
    · rw [if_neg h1]
      by_cases h2 : inputs.headD noInput = ansYes
      · rw [if_pos h2]
        right; left
        rfl
      · rw [if_neg h2]
        right; right
        rfl

theorem fallbackToOCR_eq_noocr (cfg : Config) (auto : Bool) (fs : FS)
    (inputs : List String) (env : FileEnv) (p : String)
    (hocr : env.ocrText = none) :
    fallbackToOCR cfg auto fs inputs env p =
      { result := .error "error: OCR failed", fs := fs, autoRename := auto,
        inputs := inputs, events := [.fallback, .ocrExtract] } := by
  rw [fallbackToOCR, hocr]

theorem fallbackToOCR_eq_generr (cfg : Config) (auto : Bool) (fs : FS)
    (inputs : List String) (env : FileEnv) (p : String) (t : List Char)
    (e : String) (hocr : env.ocrText = some t)
    (hgen : generateFilename env.textApi = .error e) :
    fallbackToOCR cfg auto fs inputs env p =
      { result := .error e, fs := fs, autoRename := auto,
        inputs := inputs, events := [.fallback, .ocrExtract, .ocrInfer] } := by
  rw [fallbackToOCR, hocr, hgen]

theorem fallbackToOCR_eq_ok (cfg : Config) (auto : Bool) (fs : FS)
    (inputs : List String) (env : FileEnv) (p : String) (t : List Char)
    (name : List Char) (hocr : env.ocrText = some t)
    (hgen : generateFilename env.textApi = .ok name) :
    fallbackToOCR cfg auto fs inputs env p =
      { confirmAndWrite cfg auto fs inputs p name with
        events := .fallback :: .ocrExtract :: .ocrInfer ::
          (confirmAndWrite cfg auto fs inputs p name).events } := by
  rw [fallbackToOCR, hocr, hgen]

theorem fallbackToOCR_spec (cfg : Config) (auto : Bool) (fs : FS)
    (inputs : List String) (env : FileEnv) (p : String) :
    (fallbackToOCR cfg auto fs inputs env p).events.count .fallback = 1 ∧
    (fallbackToOCR cfg auto fs inputs env p).events.count .visionExtract = 0 ∧
    (fallbackToOCR cfg auto fs inputs env p).events.count .visionInfer = 0 ∧
    (fallbackToOCR cfg auto fs inputs env p).events.count .ocrExtract = 1 ∧
    (ocrFails env →
      (∃ e, (fallbackToOCR cfg auto fs inputs env p).result = .error e) ∧
      (fallbackToOCR cfg auto fs inputs env p).events.count .write = 0) := by
  cases hocr : env.ocrText with
  | none =>
    rw [fallbackToOCR_eq_noocr cfg auto fs inputs env p hocr]
    refine ⟨by rfl, by rfl, by rfl, by rfl, fun _ => ?_⟩
    exact ⟨⟨_, rfl⟩, by rfl⟩
  | some t =>
    cases hgen : generateFilename env.textApi with
    | error e =>
      rw [fallbackToOCR_eq_generr cfg auto fs inputs env p t e hocr hgen]
      refine ⟨by rfl, by rfl, by rfl, by rfl, fun _ => ?_⟩
      exact ⟨⟨_, rfl⟩, by rfl⟩
    | ok name =>
      rw [fallbackToOCR_eq_ok cfg auto fs inputs env p t name hocr hgen]
      have hcontra : ¬ ocrFails env := by
        rintro (h1 | ⟨e, h2⟩)
        · rw [hocr] at h1
          exact Option.noConfusion h1
        · rw [hgen] at h2
          exact Except.noConfusion h2
      rcases confirmAndWrite_events cfg auto fs inputs p name with hc | hc | hc <;>
        rw [show ({ confirmAndWrite cfg auto fs inputs p name with
            events := .fallback :: .ocrExtract :: .ocrInfer ::
              (confirmAndWrite cfg auto fs inputs p name).events } :
            PDFOutcome).events = .fallback :: .ocrExtract :: .ocrInfer ::
              (confirmAndWrite cfg auto fs inputs p name).events from rfl] <;>
        rw [hc] <;>
        exact ⟨by rfl, by rfl, by rfl, by rfl,
          fun hf => absurd hf hcontra⟩

theorem processPDF_eq_noextract (cfg : Config) (auto : Bool) (fs : FS)
    (inputs : List String) (env : FileEnv) (p : String) (e : String)
    (hfm : cfg.FastMode = true)
    (hx : extractPDFPages env.pages = .error e) :
    processPDF cfg auto fs inputs env p =
      { fallbackToOCR cfg auto fs inputs env p with
        events := .visionExtract ::
          (fallbackToOCR cfg auto fs inputs env p).events } := by
  rw [processPDF, if_pos hfm, hx]

theorem processPDF_eq_visionerr (cfg : Config) (auto : Bool) (fs : FS)
    (inputs : List String) (env : FileEnv) (p : String)
    (images : List Img) (e : String) (hfm : cfg.FastMode = true)
    (hx : extractPDFPages env.pages = .ok images)
    (hv : generateFilenameFast images env.visionApi = .error e) :
    processPDF cfg auto fs inputs env p =
      { fallbackToOCR cfg auto fs inputs env p with
        events := .visionExtract :: .visionInfer ::
          (fallbackToOCR cfg auto fs inputs env p).events } := by
  simp only [processPDF, if_pos hfm, hx, hv]

theorem processPDF_eq_visionok (cfg : Config) (auto : Bool) (fs : FS)
    (inputs : List String) (env : FileEnv) (p : String)
    (images : List Img) (name : List Char) (hfm : cfg.FastMode = true)
    (hx : extractPDFPages env.pages = .ok images)
    (hv : generateFilenameFast images env.visionApi = .ok name) :
    processPDF cfg auto fs inputs env p =
      { confirmAndWrite cfg auto fs inputs p name with
        events := .visionExtract :: .visionInfer ::
          (confirmAndWrite cfg auto fs inputs p name).events } := by
  simp only [processPDF, if_pos hfm, hx, hv]

/-- C1: in vision mode, whenever the vision attempt fails (page
extraction yields zero pages, or the vision inference call returns an
error), processing falls back to the OCR path exactly once and never
retries the vision path (page extraction runs exactly once, vision
inference at most once); and if the OCR path itself fails at text
extraction or at text inference, processing of the file fails with no
write and no further fallback. -/
theorem vision_fallback_once (cfg : Config) (auto : Bool) (fs : FS)
    (inputs : List String) (env : FileEnv) (p : String)
    (hfm : cfg.FastMode = true) (hv : visionFails env) :
    (processPDF cfg auto fs inputs env p).events.count .fallback = 1 ∧
    (processPDF cfg auto fs inputs env p).events.count .visionExtract = 1 ∧
    (processPDF cfg auto fs inputs env p).events.count .visionInfer ≤ 1 ∧
    (processPDF cfg auto fs inputs env p).events.count .ocrExtract = 1 ∧
    (ocrFails env →
      (∃ e, (processPDF cfg auto fs inputs env p).result = .error e) ∧
      (processPDF cfg auto fs inputs env p).events.count .write = 0) := by
  have hf := fallbackToOCR_spec cfg auto fs inputs env p
  cases hx : extractPDFPages env.pages with
  | error e =>
    rw [processPDF_eq_noextract cfg auto fs inputs env p e hfm hx]
    refine ⟨?_, ?_, ?_, ?_, ?_⟩
    · simp [List.count_cons, hf.1]
    · simp [List.count_cons, hf.2.1]
    · simp [List.count_cons, hf.2.2.1]
    · simp [List.count_cons, hf.2.2.2.1]
    · intro hocrf
      have h5 := hf.2.2.2.2 hocrf
      exact ⟨h5.1, by simp [List.count_cons, h5.2]⟩
  | ok images =>
    have hv2 : ∃ e, generateFilenameFast images env.visionApi = .error e := by
      unfold visionFails at hv
      rw [hx] at hv
      exact hv
    cases hgf : generateFilenameFast images env.visionApi with
    | ok name =>
      rcases hv2 with ⟨e, he⟩
      rw [hgf] at he
      exact absurd he (by simp)
    | error e =>
      rw [processPDF_eq_visionerr cfg auto fs inputs env p images e hfm hx hgf]
      refine ⟨?_, ?_, ?_, ?_, ?_⟩
      · simp [List.count_cons, hf.1]
      · simp [List.count_cons, hf.2.1]
      · simp [List.count_cons, hf.2.2.1]
      · simp [List.count_cons, hf.2.2.2.1]
      · intro hocrf
        have h5 := hf.2.2.2.2 hocrf
        exact ⟨h5.1, by simp [List.count_cons, h5.2]⟩

/-- Collaborators for a file where both the rasterizer and the OCR tool
fail. -/
def envAllFail : FileEnv :=
  { pages := fun _ => none, visionApi := .fail,
    ocrText := none, textApi := .fail }

/-- C1 witness: the fallback theorem applied at a concrete vision-mode
configuration and a file whose rasterization and OCR both fail. -/
theorem vision_fallback_once_witness :
    (processPDF cfgOutDir true fsDoc [] envAllFail srcDoc).events.count
      .fallback = 1 ∧
    (processPDF cfgOutDir true fsDoc [] envAllFail srcDoc).events.count
      .visionExtract = 1 ∧
    (processPDF cfgOutDir true fsDoc [] envAllFail srcDoc).events.count
      .visionInfer ≤ 1 ∧
    (processPDF cfgOutDir true fsDoc [] envAllFail srcDoc).events.count
      .ocrExtract = 1 ∧
    (ocrFails envAllFail →
      (∃ e, (processPDF cfgOutDir true fsDoc [] envAllFail srcDoc).result =
        .error e) ∧
      (processPDF cfgOutDir true fsDoc [] envAllFail srcDoc).events.count
        .write = 0) :=
  vision_fallback_once cfgOutDir true fsDoc [] envAllFail srcDoc rfl trivial

/- ------------------------------------------------------------------ -/
/- Auto-confirm stickiness                                             -/
/- ------------------------------------------------------------------ -/

theorem confirmAndWrite_auto (cfg : Config) (fs : FS) (inputs : List String)
    (src : String) (name : List Char) :
    confirmAndWrite cfg true fs inputs src name =
      { result := (writeOutputFile cfg fs src ⟨name⟩).2.map (fun _ => ()),
        fs := (writeOutputFile cfg fs src ⟨name⟩).1,
        autoRename := true, inputs := inputs, events := [.write] } := by
  rw [confirmAndWrite, if_pos rfl]

theorem confirmAndWrite_acceptall (cfg : Config) (fs : FS)
    (inputs : List String) (src : String) (name : List Char)
    (ha : inputs.headD noInput = ansAll) :
    confirmAndWrite cfg false fs inputs src name =
      { result := (writeOutputFile cfg fs src ⟨name⟩).2.map (fun _ => ()),
        fs := (writeOutputFile cfg fs src ⟨name⟩).1,
        autoRename := true, inputs := inputs.tail,
        events := [.promptUser, .write] } := by
  rw [confirmAndWrite, if_neg (by simp), if_pos ha]

theorem processPDF_eq_ocrnone (cfg : Config) (auto : Bool) (fs : FS)
    (inputs : List String) (env : FileEnv) (p : String)
    (hfm : cfg.FastMode = false) (hocr : env.ocrText = none) :
    processPDF cfg auto fs inputs env p =
      { result := .error "error: OCR failed", fs := fs, autoRename := auto,
        inputs := inputs, events := [.ocrExtract] } := by
  rw [processPDF, if_neg (by simp [hfm]), hocr]

theorem processPDF_eq_ocrerr (cfg : Config) (auto : Bool) (fs : FS)
    (inputs : List String) (env : FileEnv) (p : String) (t : List Char)
    (e : String) (hfm : cfg.FastMode = false) (hocr : env.ocrText = some t)
    (hgen : generateFilename env.textApi = .error e) :
    processPDF cfg auto fs inputs env p =
      { result := .error e, fs := fs, autoRename := auto,
        inputs := inputs, events := [.ocrExtract, .ocrInfer] } := by
  simp only [processPDF, if_neg (show ¬cfg.FastMode = true by simp [hfm]),
    hocr, hgen]

theorem processPDF_eq_ocrok (cfg : Config) (auto : Bool) (fs : FS)
    (inputs : List String) (env : FileEnv) (p : String) (t : List Char)
    (name : List Char) (hfm : cfg.FastMode = false)
    (hocr : env.ocrText = some t)
    (hgen : generateFilename env.textApi = .ok name) :
    processPDF cfg auto fs inputs env p =
      { confirmAndWrite cfg auto fs inputs p name with
        events := .ocrExtract :: .ocrInfer ::
          (confirmAndWrite cfg auto fs inputs p name).events } := by
  simp only [processPDF, if_neg (show ¬cfg.FastMode = true by simp [hfm]),
    hocr, hgen]

theorem processPDF_toConfirm (cfg : Config) (auto : Bool) (fs : FS)
    (inputs : List String) (env : FileEnv) (p : String) (name : List Char)
    (hn : producedName cfg env = some name) :
    ∃ pre : List Event,
      processPDF cfg auto fs inputs env p =
        { confirmAndWrite cfg auto fs inputs p name with
          events := pre ++ (confirmAndWrite cfg auto fs inputs p name).events } ∧
      pre.count .promptUser = 0 ∧ pre.count .write = 0 := by
  have hocrcase : ocrName env = some name →
      ∃ t, env.ocrText = some t ∧ generateFilename env.textApi = .ok name := by
    intro ht
    rw [ocrName] at ht
    cases hocr : env.ocrText with
    | none =>
      rw [hocr] at ht
      exact Option.noConfusion ht
    | some t =>
      rw [hocr] at ht
      cases hgen : generateFilename env.textApi with
      | error e =>
        rw [hgen] at ht
        exact Option.noConfusion ht
      | ok nm =>
        rw [hgen] at ht
        have hnm : nm = name := by
          simpa [Except.toOption] using ht
        exact ⟨t, rfl, by rw [hnm]⟩
  cases hfm : cfg.FastMode with
  | true =>
    rw [producedName, if_pos hfm] at hn
    cases hx : extractPDFPages env.pages with
    | error e =>
      rw [hx] at hn
      rcases hocrcase hn with ⟨t, hocr, hgen⟩
      refine ⟨[.visionExtract, .fallback, .ocrExtract, .ocrInfer], ?_, rfl, rfl⟩
      rw [processPDF_eq_noextract cfg auto fs inputs env p e hfm hx,
        fallbackToOCR_eq_ok cfg auto fs inputs env p t name hocr hgen]
      rfl
    | ok images =>
      rw [hx] at hn
      have hn2 : (match generateFilenameFast images env.visionApi with
          | Except.error _ => ocrName env
          | Except.ok n => some n) = some name := hn
      cases hgf : generateFilenameFast images env.visionApi with
      | error e =>
        rw [hgf] at hn2
        rcases hocrcase hn2 with ⟨t, hocr, hgen⟩
        refine ⟨[.visionExtract, .visionInfer, .fallback, .ocrExtract,
          .ocrInfer], ?_, rfl, rfl⟩
        rw [processPDF_eq_visionerr cfg auto fs inputs env p images e hfm hx hgf,
          fallbackToOCR_eq_ok cfg auto fs inputs env p t name hocr hgen]
        rfl
      | ok nm =>
        rw [hgf] at hn2
        have hnm : nm = name := Option.some.inj hn2
        subst hnm
        refine ⟨[.visionExtract, .visionInfer], ?_, rfl, rfl⟩
        rw [processPDF_eq_visionok cfg auto fs inputs env p images nm hfm hx hgf]
        rfl
  | false =>
    rw [producedName, if_neg (by simp [hfm])] at hn
    rcases hocrcase hn with ⟨t, hocr, hgen⟩
    refine ⟨[.ocrExtract, .ocrInfer], ?_, rfl, rfl⟩
    rw [processPDF_eq_ocrok cfg auto fs inputs env p t name hfm hocr hgen]
    rfl

theorem fallbackToOCR_noname (cfg : Config) (auto : Bool) (fs : FS)
    (inputs : List String) (env : FileEnv) (p : String)
    (hn : ocrName env = none) :
    (fallbackToOCR cfg auto fs inputs env p).autoRename = auto ∧
    (fallbackToOCR cfg auto fs inputs env p).inputs = inputs ∧
    (fallbackToOCR cfg auto fs inputs env p).events.count .promptUser = 0 ∧
    (fallbackToOCR cfg auto fs inputs env p).events.count .write = 0 := by
  rw [ocrName] at hn
  cases hocr : env.ocrText with
  | none =>
    rw [fallbackToOCR_eq_noocr cfg auto fs inputs env p hocr]
    exact ⟨rfl, rfl, rfl, rfl⟩
  | some t =>
    rw [hocr] at hn
    cases hgen : generateFilename env.textApi with
    | error e =>
      rw [fallbackToOCR_eq_generr cfg auto fs inputs env p t e hocr hgen]
      exact ⟨rfl, rfl, rfl, rfl⟩
    | ok nm =>
      rw [hgen] at hn
      simp [Except.toOption] at hn

theorem processPDF_noConfirm (cfg : Config) (auto : Bool) (fs : FS)
    (inputs : List String) (env : FileEnv) (p : String)
    (hn : producedName cfg env = none) :
    (processPDF cfg auto fs inputs env p).autoRename = auto ∧
    (processPDF cfg auto fs inputs env p).inputs = inputs ∧
    (processPDF cfg auto fs inputs env p).events.count .promptUser = 0 ∧
    (processPDF cfg auto fs inputs env p).events.count .write = 0 := by
  cases hfm : cfg.FastMode with
  | true =>
    rw [producedName, if_pos hfm] at hn
    cases hx : extractPDFPages env.pages with
    | error e =>
      rw [hx] at hn
      have hf := fallbackToOCR_noname cfg auto fs inputs env p hn
      rw [processPDF_eq_noextract cfg auto fs inputs env p e hfm hx]
      refine ⟨hf.1, hf.2.1, ?_, ?_⟩
      · show List.count .promptUser (.visionExtract ::
          (fallbackToOCR cfg auto fs inputs env p).events) = 0
        simp [List.count_cons, hf.2.2.1]
      · show List.count .write (.visionExtract ::
          (fallbackToOCR cfg auto fs inputs env p).events) = 0
        simp [List.count_cons, hf.2.2.2]
    | ok images =>
      rw [hx] at hn
      have hn2 : (match generateFilenameFast images env.visionApi with
          | Except.error _ => ocrName env
          | Except.ok n => some n) = none := hn
      cases hgf : generateFilenameFast images env.visionApi with
      | error e =>
        rw [hgf] at hn2
        have hf := fallbackToOCR_noname cfg auto fs inputs env p hn2
        rw [processPDF_eq_visionerr cfg auto fs inputs env p images e hfm hx hgf]
        refine ⟨hf.1, hf.2.1, ?_, ?_⟩
        · show List.count .promptUser (.visionExtract :: .visionInfer ::
            (fallbackToOCR cfg auto fs inputs env p).events) = 0
          simp [List.count_cons, hf.2.2.1]
        · show List.count .write (.visionExtract :: .visionInfer ::
            (fallbackToOCR cfg auto fs inputs env p).events) = 0
          simp [List.count_cons, hf.2.2.2]
      | ok nm =>
        rw [hgf] at hn2
        exact Option.noConfusion hn2
  | false =>
    rw [producedName, if_neg (by simp [hfm])] at hn
    rw [ocrName] at hn
    cases hocr : env.ocrText with
    | none =>
      rw [processPDF_eq_ocrnone cfg auto fs inputs env p hfm hocr]
      exact ⟨rfl, rfl, rfl, rfl⟩
    | some t =>
      rw [hocr] at hn
      cases hgen : generateFilename env.textApi with
      | error e =>
        rw [processPDF_eq_ocrerr cfg auto fs inputs env p t e hfm hocr hgen]
        exact ⟨rfl, rfl, rfl, rfl⟩
      | ok nm =>
        rw [hgen] at hn
        simp [Except.toOption] at hn

theorem processPDF_auto (cfg : Config) (fs : FS) (inputs : List String)
    (env : FileEnv) (p : String) :
    (processPDF cfg true fs inputs env p).autoRename = true ∧
    (processPDF cfg true fs inputs env p).inputs = inputs ∧
    (processPDF cfg true fs inputs env p).events.count .promptUser = 0 ∧
    ((producedName cfg env).isSome = true →
      (processPDF cfg true fs inputs env p).events.count .write = 1) := by
  cases hps : producedName cfg env with
  | none =>
    have h := processPDF_noConfirm cfg true fs inputs env p hps
    refine ⟨h.1, h.2.1, h.2.2.1, fun hc => ?_⟩
    simp at hc
  | some name =>
    rcases processPDF_toConfirm cfg true fs inputs env p name hps with
      ⟨pre, heq, hp0, hw0⟩
    rw [heq, confirmAndWrite_auto]
    refine ⟨rfl, rfl, ?_, fun _ => ?_⟩
    · show List.count .promptUser (pre ++ [.write]) = 0
      rw [List.count_append, hp0]
      rfl
    · show List.count .write (pre ++ [.write]) = 1
      rw [List.count_append, hw0]
      rfl

theorem processPDF_accept_all (cfg : Config) (fs : FS) (inputs : List String)
    (env : FileEnv) (p : String) (name : List Char)
    (hn : producedName cfg env = some name)
    (ha : inputs.headD noInput = ansAll) :
    (processPDF cfg false fs inputs env p).autoRename = true ∧
    (processPDF cfg false fs inputs env p).inputs = inputs.tail ∧
    (processPDF cfg false fs inputs env p).events.count .promptUser = 1 := by
  rcases processPDF_toConfirm cfg false fs inputs env p name hn with
    ⟨pre, heq, hp0, hw0⟩
  rw [heq, confirmAndWrite_acceptall cfg fs inputs p name ha]
  refine ⟨rfl, rfl, ?_⟩
  show List.count .promptUser (pre ++ [.promptUser, .write]) = 1
  rw [List.count_append, hp0]
  rfl

theorem processBatch_auto (cfg : Config) : ∀ (files : List (FileEnv × String))
    (fs : FS) (inputs : List String),
    (processBatch cfg true fs inputs files).autoRename = true ∧
    (processBatch cfg true fs inputs files).inputs = inputs ∧
    (∀ t ∈ (processBatch cfg true fs inputs files).traces,
      t.count .promptUser = 0) ∧
    ((∀ ep ∈ files, (producedName cfg ep.1).isSome = true) →
      ∀ t ∈ (processBatch cfg true fs inputs files).traces,
        t.count .write = 1)
  | [], fs, inputs => by
    refine ⟨rfl, rfl, ?_, fun _ => ?_⟩ <;>
      · intro t ht
        rw [processBatch] at ht
        simp at ht
  | (env, p) :: rest, fs, inputs => by
    have hpa := processPDF_auto cfg fs inputs env p
    have ih := processBatch_auto cfg rest
      (processPDF cfg true fs inputs env p).fs
      (processPDF cfg true fs inputs env p).inputs
    have hbatch : processBatch cfg true fs inputs ((env, p) :: rest) =
        { processBatch cfg true (processPDF cfg true fs inputs env p).fs
            (processPDF cfg true fs inputs env p).inputs rest with
          traces := (processPDF cfg true fs inputs env p).events ::
            (processBatch cfg true (processPDF cfg true fs inputs env p).fs
              (processPDF cfg true fs inputs env p).inputs rest).traces } := by
      rw [processBatch, hpa.1]
    rw [hbatch]
    refine ⟨ih.1, ?_, ?_, ?_⟩
    · show (processBatch cfg true (processPDF cfg true fs inputs env p).fs
          (processPDF cfg true fs inputs env p).inputs rest).inputs = inputs
      rw [ih.2.1, hpa.2.1]
    · intro t ht
      rcases List.mem_cons.mp ht with h1 | h2
      · rw [h1]
        exact hpa.2.2.1
      · exact ih.2.2.1 t h2
    · intro hall t ht
      rcases List.mem_cons.mp ht with h1 | h2
      · rw [h1]
        exact hpa.2.2.2 (hall (env, p) (List.mem_cons_self _ _))
      · exact ih.2.2.2
          (fun ep hep => hall ep (List.mem_cons_of_mem _ hep)) t h2

/-- C6: once the user answers accept-all at one file (the file reaches
its confirmation prompt with the auto-confirm flag still off and the
console token read is the accept-all answer), the flag is promoted to
true, exactly that one console token is consumed, and for the entire
remainder of the batch the flag stays true with no further confirmation
prompt and no further console read; every remaining file whose
extraction and inference succeed is renamed (one write, no prompt). -/
theorem accept_all_stickiness (cfg : Config) (fs : FS) (inputs : List String)
    (env : FileEnv) (p : String) (files : List (FileEnv × String))
    (name : List Char)
    (hname : producedName cfg env = some name)
    (ha : inputs.headD noInput = ansAll) :
    (processPDF cfg false fs inputs env p).autoRename = true ∧
    (processPDF cfg false fs inputs env p).inputs = inputs.tail ∧
    (processPDF cfg false fs inputs env p).events.count .promptUser = 1 ∧
    (processBatch cfg (processPDF cfg false fs inputs env p).autoRename
      (processPDF cfg false fs inputs env p).fs
      (processPDF cfg false fs inputs env p).inputs files).autoRename = true ∧
    (processBatch cfg (processPDF cfg false fs inputs env p).autoRename
      (processPDF cfg false fs inputs env p).fs
      (processPDF cfg false fs inputs env p).inputs files).inputs =
        inputs.tail ∧
    (∀ t ∈ (processBatch cfg (processPDF cfg false fs inputs env p).autoRename
        (processPDF cfg false fs inputs env p).fs
        (processPDF cfg false fs inputs env p).inputs files).traces,
      t.count .promptUser = 0) ∧
    ((∀ ep ∈ files, (producedName cfg ep.1).isSome = true) →
      ∀ t ∈ (processBatch cfg
          (processPDF cfg false fs inputs env p).autoRename
          (processPDF cfg false fs inputs env p).fs
          (processPDF cfg false fs inputs env p).inputs files).traces,
        t.count .write = 1) := by
  have h1 := processPDF_accept_all cfg fs inputs env p name hname ha
  have h2 := processBatch_auto cfg files
    (processPDF cfg false fs inputs env p).fs
    (processPDF cfg false fs inputs env p).inputs
  rw [h1.1, h1.2.1]
  rw [h1.2.1] at h2
  exact ⟨rfl, rfl, h1.2.2, h2.1, h2.2.1, h2.2.2.1, h2.2.2.2⟩

/-- A decoded response whose sanitization is the one-letter name x. -/
def respX : OllamaResponse := { response := ['x'], error := "" }

/-- Collaborators for a file whose OCR path succeeds end to end. -/
def envOk : FileEnv :=
  { pages := fun _ => none, visionApi := .fail,
    ocrText := some ['t'], textApi := .ok respX }

/-- A console input stream holding one accept-all answer. -/
def inputAccept : List String := [ansAll]

/-- C6 witness: the stickiness theorem applied at a concrete OCR-mode
file followed by one more file, with the accept-all answer as the only
console token. -/
theorem accept_all_stickiness_witness :
    (processPDF cfgNoOut false fsDoc inputAccept envOk srcDoc).autoRename =
      true ∧
    (processPDF cfgNoOut false fsDoc inputAccept envOk srcDoc).inputs =
      inputAccept.tail ∧
    (processPDF cfgNoOut false fsDoc inputAccept envOk
      srcDoc).events.count .promptUser = 1 ∧
    (processBatch cfgNoOut
      (processPDF cfgNoOut false fsDoc inputAccept envOk srcDoc).autoRename
      (processPDF cfgNoOut false fsDoc inputAccept envOk srcDoc).fs
      (processPDF cfgNoOut false fsDoc inputAccept envOk srcDoc).inputs
      [(envOk, srcDoc)]).autoRename = true ∧
    (processBatch cfgNoOut
      (processPDF cfgNoOut false fsDoc inputAccept envOk srcDoc).autoRename
      (processPDF cfgNoOut false fsDoc inputAccept envOk srcDoc).fs
      (processPDF cfgNoOut false fsDoc inputAccept envOk srcDoc).inputs
      [(envOk, srcDoc)]).inputs = inputAccept.tail ∧
    (∀ t ∈ (processBatch cfgNoOut
        (processPDF cfgNoOut false fsDoc inputAccept envOk srcDoc).autoRename
        (processPDF cfgNoOut false fsDoc inputAccept envOk srcDoc).fs
        (processPDF cfgNoOut false fsDoc inputAccept envOk srcDoc).inputs
        [(envOk, srcDoc)]).traces,
      t.count .promptUser = 0) ∧
    ((∀ ep ∈ [((envOk : FileEnv), srcDoc)],
        (producedName cfgNoOut ep.1).isSome = true) →
      ∀ t ∈ (processBatch cfgNoOut
          (processPDF cfgNoOut false fsDoc inputAccept envOk srcDoc).autoRename
          (processPDF cfgNoOut false fsDoc inputAccept envOk srcDoc).fs
          (processPDF cfgNoOut false fsDoc inputAccept envOk srcDoc).inputs
          [(envOk, srcDoc)]).traces,
        t.count .write = 1) :=
  accept_all_stickiness cfgNoOut fsDoc inputAccept envOk srcDoc
    [(envOk, srcDoc)] ['x'] (by decide) (by decide)
